import Mathlib

/-!
Verification of the bronze→silver→gold transformation pipeline of the
economic-indicators ETL repository.

The pandas DataFrames of the source are shallowly embedded as `Frame`:
a header of column names together with row-major lists of cells, a cell
being `Option ℚ` (`none` models a NaN/null cell; float arithmetic is
modelled by exact rational arithmetic).  Calendar dates are embedded as
`Date` records encoded injectively and order-preservingly into ℕ
(`y*10000 + m*100 + d`), so that pandas date ordering and the
`strftime "%Y-%m"` month key (encoded `y*100 + m`) are both captured.

The sample standard deviation used for the FX `volatility` columns is an
irrational square root, which ℚ cannot represent; the embedding therefore
abstracts it as an explicit function parameter `stdF`, and every theorem
about the FX pipeline is proved for arbitrary `stdF` (the claims settled
here never depend on its value: the size-one branch of the source
bypasses it).

Constant string metadata columns attached at the end of each transformer
(`indicator`, `indicator_name`, `unit`, `frequency`, `processed_at`) carry
no data dependence and are omitted from the embedding.
-/

namespace EconETL

/- The Batteries rational arithmetic definitions are `@[irreducible]`,
which blocks `decide`-style evaluation of concrete pipelines; restore
default reducibility locally so concrete frames evaluate. -/
attribute [local semireducible] Rat.add Rat.mul Rat.sub Rat.inv

/-- A DataFrame cell: `none` models NaN/null. -/
abbrev Cell := Option ℚ

/-- Row-major embedding of a pandas DataFrame. -/
structure Frame where
  header : List String
  rows : List (List Cell)
deriving Repr, DecidableEq

/-- Index of the first column with the given name (pandas column lookup). -/
def colIdx : List String → String → Option ℕ
  | [], _ => none
  | h :: t, c => if h = c then some 0 else (colIdx t c).map (· + 1)

/-- `name in df.columns`. -/
def Frame.hasCol (f : Frame) (c : String) : Bool :=
  (colIdx f.header c).isSome

/-- `df[c]` as a list of cells (`none` when the column is absent). -/
def Frame.getCol? (f : Frame) (c : String) : Option (List Cell) :=
  (colIdx f.header c).map (fun i => f.rows.map (fun r => r.getD i none))

/-- `df[c]`, defaulting to the empty column. -/
def Frame.getColD (f : Frame) (c : String) : List Cell :=
  (f.getCol? c).getD []

/-- `df[c] = v`: pandas column assignment — replaces the column in place
when the name exists, otherwise appends it on the right. -/
def Frame.setCol (f : Frame) (c : String) (v : List Cell) : Frame :=
  match colIdx f.header c with
  | some i => ⟨f.header, (f.rows.zip v).map (fun p => p.1.set i p.2)⟩
  | none => ⟨f.header ++ [c], (f.rows.zip v).map (fun p => p.1 ++ [p.2])⟩

/-- `df.drop(columns=names)`. -/
def Frame.dropCols (f : Frame) (names : List String) : Frame :=
  let keep := (List.range f.header.length).filter
    (fun i => !(names.contains (f.header.getD i "")))
  ⟨keep.map (fun i => f.header.getD i ""),
   f.rows.map (fun r => keep.map (fun i => r.getD i none))⟩

/-- `df.empty`: true when there are no rows or no columns. -/
def Frame.isEmpty (f : Frame) : Bool :=
  f.rows.isEmpty || f.header.isEmpty

/-- Well-formedness: every row has one cell per header entry. -/
def Frame.wf (f : Frame) : Prop :=
  ∀ r ∈ f.rows, r.length = f.header.length

instance (f : Frame) : Decidable f.wf :=
  List.decidableBAll _ f.rows

/-- Cell comparison used for sorting (nulls sort last,
pandas `na_position='last'`). -/
def cellLeB : Cell → Cell → Bool
  | none, none => true
  | none, some _ => false
  | some _, none => true
  | some a, some b => decide (a ≤ b)

/-- `>` on cells as evaluated by numpy: any comparison with NaN is False. -/
def cellGtB : Cell → Cell → Bool
  | some a, some b => decide (b < a)
  | _, _ => false

/-- Row comparison by the key cell at index `i`. -/
def rowLe (i : ℕ) (r s : List Cell) : Prop :=
  cellLeB (r.getD i none) (s.getD i none) = true

instance (i : ℕ) : DecidableRel (rowLe i) :=
  fun _ _ => decEq _ _

/-- `df.sort_values(c)` (modelled with a stable insertion sort; the
source data sorted in the claims has no duplicate keys, where any
comparison sort agrees). -/
def Frame.sortByCol (f : Frame) (c : String) : Frame :=
  match colIdx f.header c with
  | none => f
  | some i => ⟨f.header, List.insertionSort (rowLe i) f.rows⟩

/-- Null-propagating binary cell arithmetic. -/
def cellMap2 (g : ℚ → ℚ → ℚ) : Cell → Cell → Cell
  | some a, some b => some (g a b)
  | _, _ => none

/-- Multiply a cell by a scalar (`series * multiply`). -/
def cellScale (m : ℚ) (c : Cell) : Cell :=
  c.map (· * m)

/-- Arithmetic mean of a rational list (unreachable empty case yields 0). -/
def meanQ (l : List ℚ) : ℚ :=
  l.sum / l.length

/-- Maximum of a nonempty rational list (empty case yields 0). -/
def qMax : List ℚ → ℚ
  | [] => 0
  | x :: xs => xs.foldl max x

/-- Minimum of a nonempty rational list (empty case yields 0). -/
def qMin : List ℚ → ℚ
  | [] => 0
  | x :: xs => xs.foldl min x

/-- `series.pct_change(periods=p)`: `v[i]/v[i-p] - 1`, null for the first
`p` rows and on null operands. -/
def pctChangeL (p : ℕ) (v : List Cell) : List Cell :=
  (List.range v.length).map fun i =>
    if p ≤ i then
      match v.getD (i - p) none, v.getD i none with
      | some a, some b => some (b / a - 1)
      | _, _ => none
    else none

/-- `series.diff(periods=p)`: `v[i] - v[i-p]`, null for the first `p`
rows and on null operands. -/
def diffL (p : ℕ) (v : List Cell) : List Cell :=
  (List.range v.length).map fun i =>
    if p ≤ i then
      match v.getD (i - p) none, v.getD i none with
      | some a, some b => some (b - a)
      | _, _ => none
    else none

/-- The trailing window of size `w` ending at index `i`. -/
def windowAt (w i : ℕ) (v : List Cell) : List Cell :=
  (v.drop (i + 1 - w)).take w

/-- `series.rolling(window=w).agg(g)`: apply `g` to each full trailing
window of non-null cells, null before `w-1` and on any null in window. -/
def rollingApplyL (g : List ℚ → ℚ) (w : ℕ) (v : List Cell) : List Cell :=
  (List.range v.length).map fun i =>
    if w ≤ i + 1 then
      let win := windowAt w i v
      if win.all Option.isSome then some (g win.reduceOption) else none
    else none

/-! ### `src/utils/helpers/math_utils.py` -/

/-- One entry of the `variations` dict of `calculate_variations`
(`config.get('periods', 1)`, `config.get('column', …)`,
`config.get('multiply', 1)` — call sites always set all three, `column`
via its default only when absent). -/
structure VariationConfig where
  periods : ℕ
  column : Option String
  multiply : ℚ
deriving Repr, DecidableEq

/-- Insertion of one key/value pair into a Python dict literal: a later
duplicate key overwrites the earlier value in place. -/
def pyDictInsert (l : List (String × VariationConfig)) (kv : String × VariationConfig) :
    List (String × VariationConfig) :=
  if l.any (fun p => p.1 = kv.1) then
    l.map (fun p => if p.1 = kv.1 then (p.1, kv.2) else p)
  else l ++ [kv]

/-- Semantics of a Python dict literal, written as the list of its
entries in source order: duplicate keys collapse, the last value wins. -/
def pyDictLit (entries : List (String × VariationConfig)) : List (String × VariationConfig) :=
  entries.foldl pyDictInsert []

/-- Body of the `for var_type, config in variations.items()` loop of
`calculate_variations`: dispatches on `var_type` and assigns the result
column (unknown types fall through the `if/elif` chain and add nothing). -/
def applyVariation (value_col : String) (df : Frame) (vt : String) (cfg : VariationConfig) :
    Frame :=
  let colName := cfg.column.getD (vt ++ "_" ++ toString cfg.periods)
  let v := df.getColD value_col
  if vt = "pct_change" then
    df.setCol colName ((pctChangeL cfg.periods v).map (cellScale cfg.multiply))
  else if vt = "diff" then
    df.setCol colName ((diffL cfg.periods v).map (cellScale cfg.multiply))
  else if vt = "year_over_year" then
    df.setCol colName ((pctChangeL cfg.periods v).map (cellScale cfg.multiply))
  else df

/-- `calculate_variations(df, value_col, date_col, variations)`
(math_utils.py:7-60): returns the frame unchanged when a needed column
is missing, else sorts by date and appends each configured variation
column.  Call sites always pass `variations` explicitly, so the
`variations is None` default block is never taken. -/
def calculate_variations (df : Frame) (value_col date_col : String)
    (variations : List (String × VariationConfig)) : Frame :=
  if !(df.hasCol value_col) || !(df.hasCol date_col) then df
  else
    variations.foldl (fun acc p => applyVariation value_col acc p.1 p.2)
      (df.sortByCol date_col)

/-- `calculate_moving_average(df, value_col, window, result_col)`
(math_utils.py:62-98): unchanged when the value column is missing;
otherwise assigns the trailing-mean column named `result_col`
(default `moving_avg_{window}`).  A zero window makes pandas `rolling`
raise, which the function's `except` swallows, returning the frame
unchanged. -/
def calculate_moving_average (df : Frame) (value_col : String) (window : ℕ)
    (result_col : Option String) : Frame :=
  if !(df.hasCol value_col) then df
  else
    let rc := result_col.getD ("moving_avg_" ++ toString window)
    if window = 0 then df
    else df.setCol rc (rollingApplyL meanQ window (df.getColD value_col))

/-- First index of a given cell value in a column (used to locate
`x.iloc[0]` of a groupby group in the original row order). -/
def colIdxCell : List Cell → Cell → Option ℕ
  | [], _ => none
  | h :: t, c => if h = c then some 0 else (colIdxCell t c).map (· + 1)

/-- `groupby(year_col)[value_col].transform(lambda x: (x/x.iloc[0]-1)*100
if len(x) > 0 else 0)`: each row is mapped against the first row of its
year group, in row order; rows with a null year key are excluded from
grouping (pandas) and yield null. The `else 0` arm is dead code — groups
are never empty. -/
def ytdGroupTransform (yearC valC : List Cell) : List Cell :=
  (List.range valC.length).map fun i =>
    (yearC.getD i none).bind fun y =>
      (colIdxCell yearC (some y)).bind fun j =>
        cellMap2 (fun vi v0 => (vi / v0 - 1) * 100) (valC.getD i none) (valC.getD j none)

/-- `calculate_year_to_date(df, value_col, date_col, year_col, result_col)`
(math_utils.py:137-185): unchanged when the value column is missing, or
when both the year and date columns are missing; derives the year column
from the date when absent (`dt.year` on the `y*10000+m*100+d` date
encoding is `⌊enc/10000⌋`), then assigns the grouped YTD column. -/
def calculate_year_to_date (df : Frame) (value_col date_col year_col result_col : String) :
    Frame :=
  if !(df.hasCol value_col) then df
  else if !(df.hasCol year_col) && !(df.hasCol date_col) then df
  else
    let df1 := if df.hasCol year_col then df
      else df.setCol year_col
        ((df.getColD date_col).map (Option.map (fun q => (⌊q / 10000⌋ : ℚ))))
    df1.setCol result_col (ytdGroupTransform (df1.getColD year_col) (df1.getColD value_col))

/-- `calculate_financial_metrics(df, price_col, high_col, low_col, …)`
(math_utils.py:233-285): unchanged when the price column is missing;
otherwise assigns `return_pct`, `volatility_20` (rolling sample standard
deviation, abstracted as `stdF`), `amplitude_pct` when high/low exist,
`ma_20`, `ma_50` and the numpy `ma_cross_signal` (1 where `ma_20 >
ma_50`, else −1; NaN comparisons are False). -/
def calculate_financial_metrics (stdF : List ℚ → ℚ) (df : Frame)
    (price_col high_col low_col : String) : Frame :=
  if !(df.hasCol price_col) then df
  else
    let df1 := df.setCol "return_pct"
      ((pctChangeL 1 (df.getColD price_col)).map (cellScale 100))
    let df2 := df1.setCol "volatility_20" (rollingApplyL stdF 20 (df1.getColD price_col))
    let df3 := if df2.hasCol high_col && df2.hasCol low_col then
        df2.setCol "amplitude_pct"
          (List.zipWith (cellMap2 (fun h l => (h - l) / l * 100))
            (df2.getColD high_col) (df2.getColD low_col))
      else df2
    let df4 := df3.setCol "ma_20" (rollingApplyL meanQ 20 (df3.getColD price_col))
    let df5 := df4.setCol "ma_50" (rollingApplyL meanQ 50 (df4.getColD price_col))
    df5.setCol "ma_cross_signal"
      (List.zipWith (fun a b => some (if cellGtB a b then (1 : ℚ) else -1))
        (df5.getColD "ma_20") (df5.getColD "ma_50"))

/-! ### `src/utils/helpers/date_utils.py` -/

/-- `pd.to_datetime(col, errors='coerce')` on a column that already holds
encoded dates: the identity (already-parsed dates are preserved; the
claims never feed unparseable cells through this step). -/
def toDatetimeCell (c : Cell) : Cell := c

/-- `df.rename(columns={a: b})`. -/
def Frame.renameCol (f : Frame) (a b : String) : Frame :=
  ⟨f.header.map (fun h => if h = a then b else h), f.rows⟩

/-- `standardize_date_column(df, date_col)` (date_utils.py:8-43): when
`date_col` is absent, a literal `data` column is renamed to `date`; when
neither exists the function logs an error and returns the frame as is
(no exception is raised on this path); otherwise the date column is
datetime-coerced in place. -/
def standardize_date_column (df : Frame) (date_col : String) : Frame :=
  if df.hasCol date_col then
    df.setCol date_col ((df.getColD date_col).map toDatetimeCell)
  else if df.hasCol "data" then
    let r := df.renameCol "data" "date"
    r.setCol "date" ((r.getColD "date").map toDatetimeCell)
  else df

/-! ### Dates and normalized daily series -/

/-- A calendar date. -/
structure Date where
  y : ℕ
  m : ℕ
  d : ℕ
deriving Repr, DecidableEq

/-- Order- and identity-preserving numeric encoding of a date
(`pd.Timestamp` ordering). -/
def Date.enc (t : Date) : ℕ := t.y * 10000 + t.m * 100 + t.d

/-- The `strftime('%Y-%m')` month key, encoded so that the string order
of zero-padded keys coincides with numeric order. -/
def Date.ym (t : Date) : ℕ := t.y * 100 + t.m

/-- One observation of a normalized `{date, value}` series (the shape
every transformer policy receives after the normalization prelude
`identify_value_column` / `safe_rename_columns` /
`standardize_date_column` / `ensure_numeric`). -/
structure DayRow where
  date : Date
  value : ℚ
deriving Repr, DecidableEq

/-- The distinct `year_month` group keys in ascending order
(`df.groupby('year_month')` iterates keys sorted, pandas default
`sort=True`). -/
def ymKeys (rows : List DayRow) : List ℕ :=
  List.insertionSort (· ≤ ·) (rows.map (fun r => r.date.ym)).dedup

/-- `group['date'].max()` on the encoded dates. -/
def maxDateEnc (g : List DayRow) : ℕ :=
  (g.map (fun r => r.date.enc)).foldr max 0

/-! ### `src/transformers/bronze_to_silver.py` -/

/-- One `monthly_data` record of `transform_selic` (bronze_to_silver.py:
110-117): per `year_month` group, the latest date, the monthly mean
value, and the year/month of the group's first row. -/
structure SelicMonthlyRow where
  date : ℕ
  value : ℚ
  year : ℕ
  month : ℕ
deriving Repr, DecidableEq

/-- The group aggregation of the `for ym, group in df.groupby('year_month')`
loop of `transform_selic`. -/
def selicBucket (rows : List DayRow) (k : ℕ) : SelicMonthlyRow :=
  let g := rows.filter (fun r => r.date.ym == k)
  { date := maxDateEnc g
    value := meanQ (g.map (fun r => r.value))
    year := (g.headD ⟨⟨0, 0, 0⟩, 0⟩).date.y
    month := (g.headD ⟨⟨0, 0, 0⟩, 0⟩).date.m }

/-- `transform_selic` from the normalized daily series onward
(bronze_to_silver.py:106-149): monthly aggregation, `change_bps`
(diff, lag 1, ×100), `moving_avg_3m`, the `real_interest_rate`
placeholder 0, and the drop of the temporary year/month columns
(string metadata columns omitted). -/
def transform_selic_core (rows : List DayRow) : Frame :=
  let monthly : Frame :=
    ⟨["date", "value", "year", "month"],
     (ymKeys rows).map (fun k =>
       let b := selicBucket rows k
       [some (b.date : ℚ), some b.value, some (b.year : ℚ), some (b.month : ℚ)])⟩
  let m1 := calculate_variations monthly "value" "date"
    [("diff", ⟨1, some "change_bps", 100⟩)]
  let m2 := calculate_moving_average m1 "value" 3 (some "moving_avg_3m")
  let m3 := m2.setCol "real_interest_rate" (List.replicate m2.rows.length (some 0))
  if m3.hasCol "year" then m3.dropCols ["year", "month"] else m3

/-- One `monthly_data` record of `transform_cambio`
(bronze_to_silver.py:217-227). Field names map to the dict keys
`date/open/close/high/low/avg/volatility` (`open` is a Lean keyword). -/
structure OhlcRow where
  date : ℕ
  opn : ℚ
  cls : ℚ
  hi : ℚ
  lo : ℚ
  avg : ℚ
  vol : ℚ
deriving Repr, DecidableEq

/-- The per-bucket body of the `for ym, group in df.groupby('year_month')`
loop of `transform_cambio`: `open = iloc[0]`, `close = iloc[-1]`,
`high = max`, `low = min`, `avg = mean`, `volatility = std if len > 1
else 0` (the sample standard deviation is the abstracted `stdF`). -/
def cambioBucket (stdF : List ℚ → ℚ) (rows : List DayRow) (k : ℕ) : OhlcRow :=
  let g := rows.filter (fun r => r.date.ym == k)
  let vs := g.map (fun r => r.value)
  { date := maxDateEnc g
    opn := vs.headD 0
    cls := vs.getLastD 0
    hi := qMax vs
    lo := qMin vs
    avg := meanQ vs
    vol := if 1 < g.length then stdF vs else 0 }

/-- The full `monthly_data` list of `transform_cambio`, one OHLC row per
sorted month key. -/
def cambioMonthly (stdF : List ℚ → ℚ) (rows : List DayRow) : List OhlcRow :=
  (ymKeys rows).map (cambioBucket stdF rows)

/-- `pd.DataFrame(monthly_data)` for the OHLC records, columns in dict
key order. -/
def ohlcFrame (l : List OhlcRow) : Frame :=
  ⟨["date", "open", "close", "high", "low", "avg", "volatility"],
   l.map (fun r =>
     [some (r.date : ℚ), some r.opn, some r.cls, some r.hi, some r.lo,
      some r.avg, some r.vol])⟩

/-- `transform_cambio` from the normalized daily series onward
(bronze_to_silver.py:193-248): monthly OHLC aggregation, `value = close`,
`calculate_financial_metrics(price_col='close')`, and
`monthly_amplitude_pct = (high-low)/low*100` (string metadata columns
omitted). -/
def transform_cambio_core (stdF : List ℚ → ℚ) (rows : List DayRow) : Frame :=
  let monthly := ohlcFrame (cambioMonthly stdF rows)
  let m1 := monthly.setCol "value" (monthly.getColD "close")
  let m2 := calculate_financial_metrics stdF m1 "close" "high" "low"
  m2.setCol "monthly_amplitude_pct"
    (List.zipWith (cellMap2 (fun h l => (h - l) / l * 100))
      (m2.getColD "high") (m2.getColD "low"))

/-- `transform_desemprego` from the normalized quarterly series onward
(bronze_to_silver.py:250-290): the `variations` argument is the Python
dict literal with the key `'diff'` written twice (periods 1 →
`quarterly_change_pp`, then periods 4 → `annual_change_pp`), then
`moving_avg_3q` (string metadata columns omitted). -/
def transform_desemprego_core (rows : List DayRow) : Frame :=
  let df : Frame :=
    ⟨["date", "value"],
     rows.map (fun r => [some (r.date.enc : ℚ), some r.value])⟩
  let d1 := calculate_variations df "value" "date"
    (pyDictLit
      [("diff", ⟨1, some "quarterly_change_pp", 1⟩),
       ("diff", ⟨4, some "annual_change_pp", 1⟩)])
  calculate_moving_average d1 "value" 3 (some "moving_avg_3q")

/-! ### `src/utils/helpers/data_validation.py` -/

/-- `validate_column_presence(df, required_columns)`
(data_validation.py:7-28). -/
def validate_column_presence (df : Frame) (required : List String) :
    Bool × List String :=
  if df.isEmpty then (false, required)
  else
    let missing := required.filter (fun c => !(df.hasCol c))
    (missing.isEmpty, missing)

/-- Percentage of null cells of one column (`df.isnull().mean() * 100`). -/
def nullPct (col : List Cell) : ℚ :=
  ((col.countP (fun c => c.isNone) : ℚ) / (col.length : ℚ)) * 100

/-- `validate_missing_values(df, threshold_pct)`
(data_validation.py:111-139): valid iff no column's null percentage
strictly exceeds the threshold. -/
def validate_missing_values (df : Frame) (threshold : ℚ) :
    Bool × List (String × ℚ) :=
  if df.isEmpty then (false, [])
  else
    let above := (df.header.filter
      (fun c => decide (threshold < nullPct (df.getColD c)))).map
      (fun c => (c, nullPct (df.getColD c)))
    (above.isEmpty, above)

/-- `validate_duplicates(df, subset=None)` (data_validation.py:141-166):
number of rows equal to an earlier row. -/
def validate_duplicates (df : Frame) : Bool × ℕ :=
  if df.isEmpty then (true, 0)
  else
    let dups := df.rows.length - df.rows.dedup.length
    (decide (dups = 0), dups)

/-- `validate_dataset(df, required_columns, …, null_threshold_pct,
check_duplicates)` (data_validation.py:168-227), restricted to the
arguments its orchestrator call site passes (`type_dict` and
`range_dict` stay `None` there and contribute nothing): the overall
validity boolean. -/
def validate_dataset (df : Frame) (required : List String) (null_threshold : ℚ)
    (check_dups : Bool) : Bool :=
  if df.isEmpty then false
  else
    (validate_column_presence df required).1 &&
    (validate_missing_values df null_threshold).1 &&
    (if check_dups then (validate_duplicates df).1 else true)

/-! ### `src/transformers/base_transformer.py` -/

/-- `BaseTransformer.process_indicator` (base_transformer.py:159-211):
`load` is the outcome of `_load_source_data` (`none` = nothing found or
load raised), `transform` the stage's policy (`none` = it raised, caught
by the outer `except`), `writeOk` the outcome of the `_save_target_data`
storage write.  The transformed frame is validated with required columns
`[date, value, indicator]` and null threshold 10.0, but the verdict is
only logged (`logger.warning`) — it does not gate the save. -/
def base_process_indicator (load : Option Frame) (transform : Frame → Option Frame)
    (writeOk : Bool) : Bool :=
  match load with
  | none => false
  | some df =>
    match transform df with
    | none => false
    | some t =>
      if t.isEmpty then false
      else
        let _validation := validate_dataset t ["date", "value", "indicator"] 10 true
        writeOk

/-! ### `src/transformers/silver_to_gold.py` -/

/-- The silver indicator frames available to the gold stage
(`load_latest_indicators`, silver_to_gold.py:61-100): `none` when no
silver file exists or loading failed. -/
structure GoldIndicators where
  ipca : Option Frame
  selic : Option Frame
  pib : Option Frame
  cambio : Option Frame
  desemprego : Option Frame

/-- `all(v is None for v in indicators.values())`. -/
def GoldIndicators.allNone (g : GoldIndicators) : Bool :=
  g.ipca.isNone && g.selic.isNone && g.pib.isNone && g.cambio.isNone &&
    g.desemprego.isNone

/-- `save_to_gold_layer(df, dashboard_name)` (silver_to_gold.py:559-606):
fails on an empty frame, else reports the storage write outcome
(`writeOk`, the external `write_parquet_to_s3` result; its date-column
coercion is a no-op on already-typed columns). -/
def save_to_gold_layer (df : Frame) (writeOk : Bool) : Bool :=
  if df.isEmpty then false else writeOk

/-- One numbered product block of `process_gold_layer`: build the product
(`none` models the builder raising, caught by that block's `except`),
skip it when empty, otherwise save it.  Returns whether the block
incremented `success_count`. -/
def gold_product_step (builder : GoldIndicators → Option Frame)
    (ind : GoldIndicators) (writeOk : Bool) : Bool :=
  match builder ind with
  | none => false
  | some panel => if panel.isEmpty then false else save_to_gold_layer panel writeOk

/-- `process_gold_layer` (silver_to_gold.py:608-667): aborts when no
silver indicator is available at all; otherwise runs the three product
blocks (monthly panel, labor panel, macro dashboard) each in its own
`try/except`, counts the successful saves, and succeeds iff
`success_count > 0`.  The three builders are the class's
`create_monthly_indicators` / `create_labor_market_indicators` /
`create_macro_dashboard`, passed here as parameters since this claim
concerns only the orchestration around them. -/
def process_gold_layer (ind : GoldIndicators)
    (build_monthly build_labor build_dash : GoldIndicators → Option Frame)
    (w_monthly w_labor w_dash : Bool) : Bool :=
  if ind.allNone then false
  else
    let c1 : ℕ := if gold_product_step build_monthly ind w_monthly then 1 else 0
    let c2 : ℕ := if gold_product_step build_labor ind w_labor then 1 else 0
    let c3 : ℕ := if gold_product_step build_dash ind w_dash then 1 else 0
    decide (0 < c1 + c2 + c3)

/-! ### Statement helpers and concrete inputs -/

/-- A normalized two-column `{date, value}` frame with encoded dates, the
shape `calculate_variations` receives from the transformer policies. -/
def mkSeriesFrame (dates : List ℕ) (vals : List ℚ) : Frame :=
  ⟨["date", "value"],
   List.zipWith (fun (d : ℕ) (v : ℚ) => [some (d : ℚ), some v]) dates vals⟩

/-- A `{value, year}` frame as seen by `calculate_year_to_date` after
`create_date_features` has added the year column. -/
def mkYearFrame (years : List ℕ) (vals : List ℚ) : Frame :=
  ⟨["value", "year"],
   List.zipWith (fun (v : ℚ) (y : ℕ) => [some v, some (y : ℚ)]) vals years⟩

/-- Index of the first observation of the year group of index `i`
(`x.iloc[0]` of the pandas groupby group, in row order). -/
def firstOfYearIdx (years : List ℕ) (i : ℕ) : ℕ :=
  years.findIdx (fun y => y == years.getD i 0)

/-- A quarterly unemployment-like series: 2023Q1–2024Q1 at
8.8, 8.3, 7.9, 7.6, 7.8 per cent. -/
def exLaborSeries : List DayRow :=
  [⟨⟨2023, 3, 31⟩, 44/5⟩, ⟨⟨2023, 6, 30⟩, 83/10⟩, ⟨⟨2023, 9, 30⟩, 79/10⟩,
   ⟨⟨2023, 12, 31⟩, 38/5⟩, ⟨⟨2024, 3, 31⟩, 39/5⟩]

/-- A daily policy-rate series: 13.75 on all of April 2023 (30 days),
then 13.25 on May 1–30 2023 — constant for 30 days then lower for the
next 30, spanning exactly two calendar months. -/
def exSelicRows : List DayRow :=
  ((List.range 30).map (fun i => (⟨⟨2023, 4, i + 1⟩, 55/4⟩ : DayRow))) ++
    ((List.range 30).map (fun i => (⟨⟨2023, 5, i + 1⟩, 53/4⟩ : DayRow)))

/-- A frame that already carries a column named `moving_avg_3`, the
default result name of `calculate_moving_average` at window 3. -/
def exMaFrame : Frame :=
  ⟨["value", "moving_avg_3"],
   [[some 1, some 7], [some 2, some 8], [some 3, some 9]]⟩

/-- A raw frame with neither a `date` nor a `data` column. -/
def exNoDateFrame : Frame :=
  ⟨["foo"], [[some 1]]⟩

/-- A transformed single-row frame carrying the three required columns
and no nulls. -/
def exValFrame : Frame :=
  ⟨["date", "value", "indicator"], [[some 20230101, some 5, some 1]]⟩

/-- A normalized daily FX series: two January 2023 observations and one
single-observation February bucket. -/
def exCambioRows : List DayRow :=
  [⟨⟨2023, 1, 2⟩, 5⟩, ⟨⟨2023, 1, 3⟩, 6⟩, ⟨⟨2023, 2, 1⟩, 4⟩]

/-! ### Frame lemmas -/

theorem colIdx_lt_length {l : List String} {c : String} {i : ℕ}
    (h : colIdx l c = some i) : i < l.length := by
  induction l generalizing i with
  | nil => simp [colIdx] at h
  | cons hd tl ih =>
    simp only [colIdx] at h
    split at h
    · cases h
      simp
    · cases hcons : colIdx tl c with
      | none => rw [hcons] at h; simp at h
      | some j =>
        rw [hcons] at h
        simp only [Option.map_some'] at h
        cases h
        simpa using ih hcons

theorem colIdx_none_iff {l : List String} {c : String} :
    colIdx l c = none ↔ c ∉ l := by
  induction l with
  | nil => simp [colIdx]
  | cons hd tl ih =>
    simp only [colIdx, List.mem_cons]
    constructor
    · intro h
      split at h
      · simp at h
      · intro hmem
        rcases hmem with h1 | h2
        · simp_all
        · rw [Option.map_eq_none'] at h
          exact absurd h2 (ih.mp h)
    · intro h
      rw [if_neg (fun he => h (Or.inl he.symm)), Option.map_eq_none']
      exact ih.mpr (fun hm => h (Or.inr hm))

theorem colIdx_isSome_of_mem {l : List String} {c : String} (h : c ∈ l) :
    ∃ i, colIdx l c = some i := by
  cases hc : colIdx l c with
  | none => exact absurd h (colIdx_none_iff.mp hc)
  | some i => exact ⟨i, rfl⟩

theorem colIdx_getD {l : List String} {c : String} {i : ℕ}
    (h : colIdx l c = some i) : l.getD i "" = c := by
  induction l generalizing i with
  | nil => simp [colIdx] at h
  | cons hd tl ih =>
    simp only [colIdx] at h
    by_cases he : hd = c
    · rw [if_pos he] at h
      cases h
      simpa using he
    · rw [if_neg he] at h
      cases hc : colIdx tl c with
      | none => rw [hc] at h; cases h
      | some j =>
        rw [hc] at h
        simp only [Option.map_some'] at h
        cases h
        simpa using ih hc

theorem hasCol_eq_false_iff {f : Frame} {c : String} :
    f.hasCol c = false ↔ c ∉ f.header := by
  rw [← colIdx_none_iff (l := f.header) (c := c)]
  unfold Frame.hasCol
  cases colIdx f.header c <;> simp

theorem hasCol_eq_true_iff {f : Frame} {c : String} :
    f.hasCol c = true ↔ c ∈ f.header := by
  have h := @hasCol_eq_false_iff f c
  cases hb : f.hasCol c <;> simp_all

theorem colIdx_append_left {l t : List String} {c : String} {i : ℕ}
    (h : colIdx l c = some i) : colIdx (l ++ t) c = some i := by
  induction l generalizing i with
  | nil => simp [colIdx] at h
  | cons hd tl ih =>
    simp only [colIdx, List.cons_append, List.append_eq] at h ⊢
    by_cases he : hd = c
    · rw [if_pos he] at h ⊢
      exact h
    · rw [if_neg he] at h ⊢
      cases hc : colIdx tl c with
      | none => rw [hc] at h; cases h
      | some j =>
        rw [hc] at h
        rw [ih hc]
        exact h

theorem colIdx_append_self {l : List String} {c : String}
    (h : colIdx l c = none) : colIdx (l ++ [c]) c = some l.length := by
  induction l with
  | nil => simp [colIdx]
  | cons hd tl ih =>
    simp only [colIdx] at h
    by_cases he : hd = c
    · rw [if_pos he] at h
      cases h
    · rw [if_neg he, Option.map_eq_none'] at h
      simp only [List.cons_append, colIdx, if_neg he, List.append_eq, ih h,
        Option.map_some', List.length_cons]

theorem colIdx_append_single_ne {l : List String} {c c' : String}
    (hne : c' ≠ c) : colIdx (l ++ [c]) c' = colIdx l c' := by
  induction l with
  | nil =>
    simp only [List.nil_append, colIdx, Option.map_none']
    rw [if_neg (fun h : c = c' => hne h.symm)]
  | cons hd tl ih =>
    simp only [List.cons_append, colIdx, List.append_eq, ih]

theorem getCol?_length {f : Frame} {c : String} {col : List Cell}
    (h : f.getCol? c = some col) : col.length = f.rows.length := by
  unfold Frame.getCol? at h
  cases hc : colIdx f.header c with
  | none => rw [hc] at h; cases h
  | some i =>
    rw [hc] at h
    simp only [Option.map_some'] at h
    cases h
    simp

theorem getColD_length {f : Frame} {c : String} (h : f.hasCol c = true) :
    (f.getColD c).length = f.rows.length := by
  obtain ⟨i, hi⟩ := colIdx_isSome_of_mem (hasCol_eq_true_iff.mp h)
  unfold Frame.getColD Frame.getCol?
  rw [hi]
  simp

theorem setCol_header_of_mem {f : Frame} {c : String} {v : List Cell} {i : ℕ}
    (h : colIdx f.header c = some i) : (f.setCol c v).header = f.header := by
  unfold Frame.setCol
  rw [h]

theorem setCol_header_of_not_mem {f : Frame} {c : String} {v : List Cell}
    (h : c ∉ f.header) : (f.setCol c v).header = f.header ++ [c] := by
  unfold Frame.setCol
  rw [colIdx_none_iff.mpr h]

theorem setCol_rows_length {f : Frame} {c : String} {v : List Cell}
    (hv : v.length = f.rows.length) :
    (f.setCol c v).rows.length = f.rows.length := by
  unfold Frame.setCol
  cases colIdx f.header c <;> simp [List.length_zip, hv]

theorem setCol_wf {f : Frame} {c : String} {v : List Cell} (hwf : f.wf) :
    (f.setCol c v).wf := by
  unfold Frame.setCol
  cases hc : colIdx f.header c with
  | some i =>
    intro r hr
    simp only [List.mem_map] at hr
    obtain ⟨p, hp, hpr⟩ := hr
    have hmem := List.of_mem_zip hp
    simp only [← hpr, List.length_set]
    exact hwf p.1 hmem.1
  | none =>
    intro r hr
    simp only [List.mem_map] at hr
    obtain ⟨p, hp, hpr⟩ := hr
    have hmem := List.of_mem_zip hp
    simp only [← hpr, List.length_append, List.length_cons, List.length_nil,
      List.length_append]
    simp [hwf p.1 hmem.1]

theorem map_getD_zip_set {rows : List (List Cell)} {v : List Cell} {i : ℕ}
    (hv : v.length = rows.length) (hlen : ∀ r ∈ rows, i < r.length) :
    ((rows.zip v).map (fun p => p.1.set i p.2)).map (fun r => r.getD i none) = v := by
  induction rows generalizing v with
  | nil =>
    cases v
    · simp
    · simp at hv
  | cons r rs ih =>
    cases v with
    | nil => simp at hv
    | cons x xs =>
      simp only [List.zip_cons_cons, List.map_cons]
      have h1 : (r.set i x).getD i none = x := by
        rw [List.getD_eq_getElem?_getD,
          List.getElem?_set_self (hlen r (List.mem_cons_self r rs))]
        rfl
      rw [h1, ih (by simpa using hv) (fun s hs => hlen s (List.mem_cons_of_mem _ hs))]

theorem map_getD_zip_set_ne {rows : List (List Cell)} {v : List Cell} {i j : ℕ}
    (hij : i ≠ j) (hv : v.length = rows.length) :
    ((rows.zip v).map (fun p => p.1.set i p.2)).map (fun r => r.getD j none) =
      rows.map (fun r => r.getD j none) := by
  induction rows generalizing v with
  | nil => simp
  | cons r rs ih =>
    cases v with
    | nil => simp at hv
    | cons x xs =>
      simp only [List.zip_cons_cons, List.map_cons]
      have h1 : (r.set i x).getD j none = r.getD j none := by
        rw [List.getD_eq_getElem?_getD, List.getD_eq_getElem?_getD,
          List.getElem?_set_ne hij]
      rw [h1, ih (by simpa using hv)]

theorem map_getD_zip_append_self {rows : List (List Cell)} {v : List Cell} {n : ℕ}
    (hv : v.length = rows.length) (hlen : ∀ r ∈ rows, r.length = n) :
    ((rows.zip v).map (fun p => p.1 ++ [p.2])).map (fun r => r.getD n none) = v := by
  induction rows generalizing v with
  | nil =>
    cases v
    · simp
    · simp at hv
  | cons r rs ih =>
    cases v with
    | nil => simp at hv
    | cons x xs =>
      simp only [List.zip_cons_cons, List.map_cons]
      have hr : r.length = n := hlen r (List.mem_cons_self r rs)
      have h1 : (r ++ [x]).getD n none = x := by
        rw [List.getD_eq_getElem?_getD, List.getElem?_append_right (by omega)]
        simp [hr]
      rw [h1, ih (by simpa using hv) (fun s hs => hlen s (List.mem_cons_of_mem _ hs))]

theorem map_getD_zip_append_lt {rows : List (List Cell)} {v : List Cell} {j : ℕ}
    (hv : v.length = rows.length) (hlen : ∀ r ∈ rows, j < r.length) :
    ((rows.zip v).map (fun p => p.1 ++ [p.2])).map (fun r => r.getD j none) =
      rows.map (fun r => r.getD j none) := by
  induction rows generalizing v with
  | nil => simp
  | cons r rs ih =>
    cases v with
    | nil => simp at hv
    | cons x xs =>
      simp only [List.zip_cons_cons, List.map_cons]
      have h1 : (r ++ [x]).getD j none = r.getD j none := by
        rw [List.getD_eq_getElem?_getD, List.getD_eq_getElem?_getD,
          List.getElem?_append_left (hlen r (List.mem_cons_self r rs))]
      rw [h1, ih (by simpa using hv) (fun s hs => hlen s (List.mem_cons_of_mem _ hs))]

theorem getCol?_setCol_self {f : Frame} {c : String} {v : List Cell}
    (hwf : f.wf) (hv : v.length = f.rows.length) :
    (f.setCol c v).getCol? c = some v := by
  unfold Frame.setCol Frame.getCol?
  cases hc : colIdx f.header c with
  | some i =>
    simp only [Option.map_eq_some']
    exact ⟨i, hc,
      map_getD_zip_set hv (fun r hr => by rw [hwf r hr]; exact colIdx_lt_length hc)⟩
  | none =>
    simp only [Option.map_eq_some']
    exact ⟨f.header.length, colIdx_append_self hc,
      map_getD_zip_append_self hv (fun r hr => hwf r hr)⟩

theorem getCol?_setCol_ne {f : Frame} {c c' : String} {v : List Cell}
    (hne : c' ≠ c) (hwf : f.wf) (hv : v.length = f.rows.length) :
    (f.setCol c v).getCol? c' = f.getCol? c' := by
  unfold Frame.setCol Frame.getCol?
  cases hc : colIdx f.header c with
  | some i =>
    simp only []
    cases hc' : colIdx f.header c' with
    | none => simp [hc']
    | some j =>
      have hij : i ≠ j := by
        intro he
        subst he
        exact hne (by rw [← colIdx_getD hc', colIdx_getD hc])
      simp only [hc', Option.map_some']
      rw [map_getD_zip_set_ne hij hv]
  | none =>
    simp only []
    rw [colIdx_append_single_ne hne]
    cases hc' : colIdx f.header c' with
    | none => simp [hc']
    | some j =>
      simp only [hc', Option.map_some']
      rw [map_getD_zip_append_lt hv
        (fun r hr => by rw [hwf r hr]; exact colIdx_lt_length hc')]

theorem sortByCol_eq_of_sorted {f : Frame} {c : String} {i : ℕ}
    (hc : colIdx f.header c = some i) (hs : List.Sorted (rowLe i) f.rows) :
    f.sortByCol c = f := by
  unfold Frame.sortByCol
  rw [hc]
  show Frame.mk f.header (List.insertionSort (rowLe i) f.rows) = f
  rw [List.Sorted.insertionSort_eq hs]

theorem getD_map_some {vals : List ℚ} {i : ℕ} (h : i < vals.length) :
    (vals.map some).getD i none = some (vals.getD i 0) := by
  rw [List.getD_eq_getElem?_getD, List.getD_eq_getElem?_getD, List.getElem?_map,
    List.getElem?_eq_getElem h]
  rfl

theorem pctChangeL_length (p : ℕ) (v : List Cell) :
    (pctChangeL p v).length = v.length := by
  simp [pctChangeL]

theorem rollingApplyL_length (g : List ℚ → ℚ) (w : ℕ) (v : List Cell) :
    (rollingApplyL g w v).length = v.length := by
  simp [rollingApplyL]

theorem pctChangeL_map_some (p : ℕ) (vals : List ℚ) :
    pctChangeL p (vals.map some) =
      (List.range vals.length).map (fun i =>
        if p ≤ i then some (vals.getD i 0 / vals.getD (i - p) 0 - 1) else none) := by
  unfold pctChangeL
  rw [List.length_map]
  apply List.map_congr_left
  intro i hi
  rw [List.mem_range] at hi
  by_cases hp : p ≤ i
  · rw [if_pos hp, if_pos hp, getD_map_some hi,
      getD_map_some (lt_of_le_of_lt (Nat.sub_le i p) hi)]
  · rw [if_neg hp, if_neg hp]

theorem zipWith_pair_rows_wf {α β : Type} (g : α → β → List Cell) (n : ℕ)
    (hg : ∀ a b, (g a b).length = n) :
    ∀ (l1 : List α) (l2 : List β), ∀ r ∈ List.zipWith g l1 l2, r.length = n := by
  intro l1
  induction l1 with
  | nil => intro l2 r hr; simp at hr
  | cons a l1 ih =>
    intro l2 r hr
    cases l2 with
    | nil => simp at hr
    | cons b l2 =>
      rcases List.mem_cons.mp hr with h | h
      · rw [h]; exact hg a b
      · exact ih l2 r h

theorem mkSeriesFrame_wf (dates : List ℕ) (vals : List ℚ) :
    (mkSeriesFrame dates vals).wf := by
  intro r hr
  exact zipWith_pair_rows_wf (fun (d : ℕ) (v : ℚ) => [some (d : ℚ), some v]) 2
    (fun _ _ => rfl) dates vals r hr

theorem map_getD_one_zipWith (dates : List ℕ) (vals : List ℚ)
    (hlen : dates.length = vals.length) :
    (List.zipWith (fun (d : ℕ) (v : ℚ) => [some (d : ℚ), some v]) dates vals).map
        (fun r => r.getD 1 none) = vals.map some := by
  induction dates generalizing vals with
  | nil =>
    cases vals
    · simp
    · simp at hlen
  | cons d ds ih =>
    cases vals with
    | nil => simp at hlen
    | cons v vs =>
      simp only [List.zipWith_cons_cons, List.map_cons]
      rw [ih vs (by simpa using hlen)]
      rfl

theorem mkSeriesFrame_value_col (dates : List ℕ) (vals : List ℚ)
    (hlen : dates.length = vals.length) :
    (mkSeriesFrame dates vals).getColD "value" = vals.map some := by
  unfold mkSeriesFrame Frame.getColD Frame.getCol?
  rw [show colIdx ["date", "value"] "value" = some 1 from rfl]
  simp only [Option.map_some', Option.getD_some]
  exact map_getD_one_zipWith dates vals hlen

theorem getD_map_some_cast {years : List ℕ} {i : ℕ} (h : i < years.length) :
    (years.map (fun (y : ℕ) => some ((y : ℚ)))).getD i none = some ((years.getD i 0 : ℚ)) := by
  rw [List.getD_eq_getElem?_getD, List.getD_eq_getElem?_getD, List.getElem?_map,
    List.getElem?_eq_getElem h]
  rfl

theorem colIdxCell_map_cast (years : List ℕ) (y0 : ℕ) (hmem : y0 ∈ years) :
    colIdxCell (years.map (fun (y : ℕ) => some ((y : ℚ)))) (some ((y0 : ℚ))) =
      some (years.findIdx (fun y => y == y0)) := by
  induction years with
  | nil => cases hmem
  | cons a t ih =>
    simp only [List.map_cons, colIdxCell, List.findIdx_cons]
    by_cases he : a = y0
    · subst he
      rw [if_pos rfl]
      simp
    · have hb : (a == y0) = false := by simpa using he
      rw [if_neg (fun h => he (Nat.cast_injective (Option.some.inj h))), hb]
      have hmem' : y0 ∈ t := by
        rcases List.mem_cons.mp hmem with h | h
        · exact absurd h.symm he
        · exact h
      rw [ih hmem']
      rfl

theorem findIdx_eq_self_of_first {years : List ℕ} {i : ℕ} (hi : i < years.length)
    (hfirst : ∀ j < i, years.getD j 0 ≠ years.getD i 0) :
    years.findIdx (fun y => y == years.getD i 0) = i := by
  induction years generalizing i with
  | nil => simp at hi
  | cons a t ih =>
    cases i with
    | zero => simp [List.findIdx_cons]
    | succ n =>
      have hgd : (a :: t).getD (n + 1) 0 = t.getD n 0 := by
        simp [List.getD_cons_succ]
      have ha : a ≠ (a :: t).getD (n + 1) 0 := by
        have := hfirst 0 (Nat.succ_pos n)
        simpa using this
      have hb : (a == t.getD n 0) = false := by
        rw [hgd] at ha
        simpa using ha
      simp only [List.findIdx_cons, hgd, hb, cond_false]
      have hn : n < t.length := by simpa using hi
      have hf : ∀ j < n, t.getD j 0 ≠ t.getD n 0 := by
        intro j hj
        have := hfirst (j + 1) (by omega)
        simpa [List.getD_cons_succ] using this
      rw [ih hn hf]

theorem ytdGroupTransform_cast (years : List ℕ) (vals : List ℚ)
    (hlen : years.length = vals.length) :
    ytdGroupTransform (years.map (fun (y : ℕ) => some ((y : ℚ)))) (vals.map some) =
      (List.range vals.length).map (fun i =>
        some ((vals.getD i 0 / vals.getD (firstOfYearIdx years i) 0 - 1) * 100)) := by
  unfold ytdGroupTransform
  rw [List.length_map]
  apply List.map_congr_left
  intro i hi
  rw [List.mem_range] at hi
  have hyi : i < years.length := by omega
  rw [getD_map_some_cast hyi]
  have hmem : years.getD i 0 ∈ years := by
    rw [List.getD_eq_getElem?_getD, List.getElem?_eq_getElem hyi]
    exact List.getElem_mem hyi
  rw [Option.some_bind, colIdxCell_map_cast years (years.getD i 0) hmem,
    Option.some_bind]
  have hj : years.findIdx (fun y => y == years.getD i 0) < years.length :=
    List.findIdx_lt_length_of_exists ⟨years.getD i 0, hmem, by simp⟩
  rw [getD_map_some hi,
    show List.findIdx (fun y => y == years.getD i 0) years = firstOfYearIdx years i
      from rfl,
    getD_map_some (show firstOfYearIdx years i < vals.length by
      unfold firstOfYearIdx; omega)]
  rfl

theorem mkYearFrame_wf (years : List ℕ) (vals : List ℚ) :
    (mkYearFrame years vals).wf := by
  intro r hr
  exact zipWith_pair_rows_wf (fun (v : ℚ) (y : ℕ) => [some v, some (y : ℚ)]) 2
    (fun _ _ => rfl) vals years r hr

theorem mkYearFrame_value_col (years : List ℕ) (vals : List ℚ)
    (hlen : years.length = vals.length) :
    (mkYearFrame years vals).getColD "value" = vals.map some := by
  unfold mkYearFrame Frame.getColD Frame.getCol?
  rw [show colIdx ["value", "year"] "value" = some 0 from rfl]
  simp only [Option.map_some', Option.getD_some]
  induction vals generalizing years with
  | nil => simp
  | cons v vs ih =>
    cases years with
    | nil => simp at hlen
    | cons y ys =>
      simp only [List.zipWith_cons_cons, List.map_cons]
      rw [ih ys (by simpa using hlen)]
      rfl

theorem mkYearFrame_year_col (years : List ℕ) (vals : List ℚ)
    (hlen : years.length = vals.length) :
    (mkYearFrame years vals).getColD "year" = years.map (fun (y : ℕ) => some ((y : ℚ))) := by
  unfold mkYearFrame Frame.getColD Frame.getCol?
  rw [show colIdx ["value", "year"] "year" = some 1 from rfl]
  simp only [Option.map_some', Option.getD_some]
  induction vals generalizing years with
  | nil =>
    cases years
    · simp
    · simp at hlen
  | cons v vs ih =>
    cases years with
    | nil => simp at hlen
    | cons y ys =>
      simp only [List.zipWith_cons_cons, List.map_cons]
      rw [ih ys (by simpa using hlen)]
      rfl

theorem getCol?_eq_some_getColD {f : Frame} {c : String} (h : f.hasCol c = true) :
    f.getCol? c = some (f.getColD c) := by
  obtain ⟨i, hi⟩ := colIdx_isSome_of_mem (hasCol_eq_true_iff.mp h)
  unfold Frame.getColD Frame.getCol?
  rw [hi]
  rfl

theorem setCol_append_step {f : Frame} {c : String} {v : List Cell}
    (hwf : f.wf) (hlen : v.length = f.rows.length) (hmem : c ∉ f.header) :
    (f.setCol c v).header = f.header ++ [c] ∧ (f.setCol c v).wf ∧
    (f.setCol c v).rows.length = f.rows.length ∧
    ∀ c', c' ≠ c → (f.setCol c v).getCol? c' = f.getCol? c' :=
  ⟨setCol_header_of_not_mem hmem, setCol_wf hwf, setCol_rows_length hlen,
   fun _ h => getCol?_setCol_ne h hwf hlen⟩

theorem ohlcFrame_wf (l : List OhlcRow) : (ohlcFrame l).wf := by
  intro r hr
  unfold ohlcFrame at hr
  simp only [List.mem_map] at hr
  obtain ⟨x, -, hx⟩ := hr
  rw [← hx]
  rfl

theorem ohlcFrame_rows_length (l : List OhlcRow) :
    (ohlcFrame l).rows.length = l.length := by
  simp [ohlcFrame]

/-- Column bookkeeping of `calculate_financial_metrics` over any
well-formed frame carrying `close`, `high` and `low` but none of the six
result names: the six columns are appended in source order and every
pre-existing column is untouched. -/
theorem calc_fin_metrics_cols (stdF : List ℚ → ℚ) (f : Frame) (hwf : f.wf)
    (hclose : "close" ∈ f.header) (hhigh : "high" ∈ f.header)
    (hlow : "low" ∈ f.header)
    (h1 : "return_pct" ∉ f.header) (h2 : "volatility_20" ∉ f.header)
    (h3 : "amplitude_pct" ∉ f.header) (h4 : "ma_20" ∉ f.header)
    (h5 : "ma_50" ∉ f.header) (h6 : "ma_cross_signal" ∉ f.header) :
    (calculate_financial_metrics stdF f "close" "high" "low").header =
      f.header ++ ["return_pct", "volatility_20", "amplitude_pct", "ma_20",
        "ma_50", "ma_cross_signal"] ∧
    (calculate_financial_metrics stdF f "close" "high" "low").wf ∧
    (calculate_financial_metrics stdF f "close" "high" "low").rows.length =
      f.rows.length ∧
    ∀ c' ∈ f.header, (calculate_financial_metrics stdF f "close" "high" "low").getCol? c' =
      f.getCol? c' := by
  have hd : ∀ (a : String) (l t : List String), a ∈ l → a ∈ l ++ t :=
    fun a l t h => List.mem_append_left t h
  have hne : ∀ (a : String) (l : List String) (b : String), a ∈ l → b ∉ l → a ≠ b :=
    fun a l b ha hb he => hb (he ▸ ha)
  have hcloseB : f.hasCol "close" = true := hasCol_eq_true_iff.mpr hclose
  unfold calculate_financial_metrics
  rw [show (!f.hasCol "close") = false by rw [hcloseB]; rfl]
  simp only [Bool.false_eq_true, if_false]
  -- step 1: return_pct
  have s1 := setCol_append_step (c := "return_pct")
    (v := (pctChangeL 1 (f.getColD "close")).map (cellScale 100)) hwf
    (by rw [List.length_map, pctChangeL_length]; exact getColD_length hcloseB) h1
  obtain ⟨e1, w1, l1, p1⟩ := s1
  set f1 := f.setCol "return_pct" ((pctChangeL 1 (f.getColD "close")).map (cellScale 100))
    with hf1
  -- step 2: volatility_20
  have hc1 : f1.hasCol "close" = true := hasCol_eq_true_iff.mpr (by
    rw [e1]; exact hd _ _ _ hclose)
  have s2 := setCol_append_step (c := "volatility_20")
    (v := rollingApplyL stdF 20 (f1.getColD "close")) w1
    (by rw [rollingApplyL_length]; exact getColD_length hc1) (by
      rw [e1]
      simp_all)
  obtain ⟨e2, w2, l2, p2⟩ := s2
  set f2 := f1.setCol "volatility_20" (rollingApplyL stdF 20 (f1.getColD "close"))
    with hf2
  -- step 3: amplitude_pct (high and low are present)
  have hh2 : f2.hasCol "high" = true := hasCol_eq_true_iff.mpr (by
    rw [e2, e1]; exact hd _ _ _ (hd _ _ _ hhigh))
  have hl2 : f2.hasCol "low" = true := hasCol_eq_true_iff.mpr (by
    rw [e2, e1]; exact hd _ _ _ (hd _ _ _ hlow))
  rw [show (f2.hasCol "high" && f2.hasCol "low") = true by rw [hh2, hl2]; rfl]
  simp only [if_true]
  have s3 := setCol_append_step (c := "amplitude_pct")
    (v := List.zipWith (cellMap2 (fun h l => (h - l) / l * 100))
      (f2.getColD "high") (f2.getColD "low")) w2
    (by
      rw [List.length_zipWith, getColD_length hh2, getColD_length hl2]
      simp) (by
      rw [e2, e1]
      simp_all)
  obtain ⟨e3, w3, l3, p3⟩ := s3
  set f3 := f2.setCol "amplitude_pct" (List.zipWith
    (cellMap2 (fun h l => (h - l) / l * 100)) (f2.getColD "high") (f2.getColD "low"))
    with hf3
  -- step 4: ma_20
  have hc3 : f3.hasCol "close" = true := hasCol_eq_true_iff.mpr (by
    rw [e3, e2, e1]; exact hd _ _ _ (hd _ _ _ (hd _ _ _ hclose)))
  have s4 := setCol_append_step (c := "ma_20")
    (v := rollingApplyL meanQ 20 (f3.getColD "close")) w3
    (by rw [rollingApplyL_length]; exact getColD_length hc3) (by
      rw [e3, e2, e1]
      simp_all)
  obtain ⟨e4, w4, l4, p4⟩ := s4
  set f4 := f3.setCol "ma_20" (rollingApplyL meanQ 20 (f3.getColD "close")) with hf4
  -- step 5: ma_50
  have hc4 : f4.hasCol "close" = true := hasCol_eq_true_iff.mpr (by
    rw [e4, e3, e2, e1]; exact hd _ _ _ (hd _ _ _ (hd _ _ _ (hd _ _ _ hclose))))
  have s5 := setCol_append_step (c := "ma_50")
    (v := rollingApplyL meanQ 50 (f4.getColD "close")) w4
    (by rw [rollingApplyL_length]; exact getColD_length hc4) (by
      rw [e4, e3, e2, e1]
      simp_all)
  obtain ⟨e5, w5, l5, p5⟩ := s5
  set f5 := f4.setCol "ma_50" (rollingApplyL meanQ 50 (f4.getColD "close")) with hf5
  -- step 6: ma_cross_signal
  have hm5 : f5.hasCol "ma_20" = true := hasCol_eq_true_iff.mpr (by
    rw [e5, e4]
    exact hd _ _ _ (List.mem_append_right _ (List.mem_singleton_self _)))
  have hm5' : f5.hasCol "ma_50" = true := hasCol_eq_true_iff.mpr (by
    rw [e5]
    exact List.mem_append_right _ (List.mem_singleton_self _))
  have s6 := setCol_append_step (c := "ma_cross_signal")
    (v := List.zipWith (fun a b => some (if cellGtB a b then (1 : ℚ) else -1))
      (f5.getColD "ma_20") (f5.getColD "ma_50")) w5
    (by
      rw [List.length_zipWith, getColD_length hm5, getColD_length hm5']
      simp) (by
      rw [e5, e4, e3, e2, e1]
      simp_all)
  obtain ⟨e6, w6, l6, p6⟩ := s6
  refine ⟨?_, w6, ?_, ?_⟩
  · rw [e6, e5, e4, e3, e2, e1]
    simp
  · rw [l6, l5, l4, l3, l2, l1]
  · intro c' hc'
    rw [p6 c' (hne _ _ _ hc' h6), p5 c' (hne _ _ _ hc' h5), p4 c' (hne _ _ _ hc' h4),
      p3 c' (hne _ _ _ hc' h3), p2 c' (hne _ _ _ hc' h2), p1 c' (hne _ _ _ hc' h1)]

theorem Date.enc_eq (t : Date) : t.enc = t.ym * 100 + t.d := by
  unfold Date.enc Date.ym
  ring

theorem dedup_const {l : List ℕ} {a : ℕ} (h : ∀ x ∈ l, x = a) (hne : l ≠ []) :
    l.dedup = [a] := by
  induction l with
  | nil => exact absurd rfl hne
  | cons x xs ih =>
    have hx : x = a := h x (List.mem_cons_self x xs)
    subst hx
    cases xs with
    | nil => simp
    | cons y ys =>
      have hy : y = x := h y (List.mem_cons_of_mem _ (List.mem_cons_self y ys))
      have hmem : x ∈ y :: ys := List.mem_cons.mpr (Or.inl hy.symm)
      rw [List.dedup_cons_of_mem hmem]
      exact ih (fun z hz => h z (List.mem_cons_of_mem _ hz)) (List.cons_ne_nil y ys)

theorem dedup_const_append {l1 l2 : List ℕ} {a b : ℕ}
    (h1 : ∀ x ∈ l1, x = a) (h2 : ∀ x ∈ l2, x = b) (h1ne : l1 ≠ [])
    (h2ne : l2 ≠ []) (hab : a ≠ b) : (l1 ++ l2).dedup = [a, b] := by
  induction l1 with
  | nil => exact absurd rfl h1ne
  | cons x xs ih =>
    have hx : x = a := h1 x (List.mem_cons_self x xs)
    subst hx
    cases xs with
    | nil =>
      have hnot : x ∉ ([] : List ℕ) ++ l2 := by
        rw [List.nil_append]
        exact fun hmem => hab (h2 x hmem)
      rw [List.cons_append, List.dedup_cons_of_not_mem hnot, List.nil_append,
        dedup_const h2 h2ne]
    | cons y ys =>
      have hy : y = x := h1 y (List.mem_cons_of_mem _ (List.mem_cons_self y ys))
      have hmem : x ∈ (y :: ys) ++ l2 :=
        List.mem_append_left _ (List.mem_cons.mpr (Or.inl hy.symm))
      rw [List.cons_append, List.dedup_cons_of_mem hmem]
      exact ih (fun z hz => h1 z (List.mem_cons_of_mem _ hz)) (List.cons_ne_nil y ys)

theorem ymKeys_two_groups {r1 r2 : List DayRow} {k1 k2 : ℕ}
    (h1 : ∀ r ∈ r1, r.date.ym = k1) (h2 : ∀ r ∈ r2, r.date.ym = k2)
    (h1ne : r1 ≠ []) (h2ne : r2 ≠ []) (hk : k1 < k2) :
    ymKeys (r1 ++ r2) = [k1, k2] := by
  unfold ymKeys
  rw [List.map_append,
    dedup_const_append
      (fun x hx => by
        obtain ⟨r, hr, hrx⟩ := List.mem_map.mp hx
        rw [← hrx]; exact h1 r hr)
      (fun x hx => by
        obtain ⟨r, hr, hrx⟩ := List.mem_map.mp hx
        rw [← hrx]; exact h2 r hr)
      (by simpa using h1ne) (by simpa using h2ne) (Nat.ne_of_lt hk)]
  exact List.Sorted.insertionSort_eq (by
    simp [List.sorted_cons]
    exact hk.le)

theorem filter_ym_left {r1 r2 : List DayRow} {k1 k2 : ℕ}
    (h1 : ∀ r ∈ r1, r.date.ym = k1) (h2 : ∀ r ∈ r2, r.date.ym = k2)
    (hk : k1 ≠ k2) :
    (r1 ++ r2).filter (fun r => r.date.ym == k1) = r1 := by
  rw [List.filter_append,
    List.filter_eq_self.mpr (fun r hr => by simp [h1 r hr]),
    List.filter_eq_nil_iff.mpr (fun r hr => by simp [h2 r hr, Ne.symm hk]),
    List.append_nil]

theorem filter_ym_right {r1 r2 : List DayRow} {k1 k2 : ℕ}
    (h1 : ∀ r ∈ r1, r.date.ym = k1) (h2 : ∀ r ∈ r2, r.date.ym = k2)
    (hk : k1 ≠ k2) :
    (r1 ++ r2).filter (fun r => r.date.ym == k2) = r2 := by
  rw [List.filter_append,
    List.filter_eq_nil_iff.mpr (fun r hr => by simp [h1 r hr, hk]),
    List.filter_eq_self.mpr (fun r hr => by simp [h2 r hr]),
    List.nil_append]

theorem sum_const_list {l : List ℚ} {a : ℚ} (h : ∀ x ∈ l, x = a) :
    l.sum = l.length * a := by
  induction l with
  | nil => simp
  | cons x xs ih =>
    rw [List.sum_cons, List.length_cons, ih (fun z hz => h z (List.mem_cons_of_mem _ hz)),
      h x (List.mem_cons_self x xs)]
    push_cast
    ring

theorem meanQ_const {l : List ℚ} {a : ℚ} (h : ∀ x ∈ l, x = a) (hne : l ≠ []) :
    meanQ l = a := by
  unfold meanQ
  rw [sum_const_list h]
  have hl : (l.length : ℚ) ≠ 0 := Nat.cast_ne_zero.mpr
    (Nat.pos_iff_ne_zero.mp (List.length_pos.mpr hne))
  field_simp

theorem foldr_max_le {l : List ℕ} {b : ℕ} (h : ∀ x ∈ l, x ≤ b) :
    l.foldr max 0 ≤ b := by
  induction l with
  | nil => exact Nat.zero_le b
  | cons x xs ih =>
    exact max_le (h x (List.mem_cons_self x xs))
      (ih (fun z hz => h z (List.mem_cons_of_mem _ hz)))

theorem le_foldr_max {l : List ℕ} {x : ℕ} (h : x ∈ l) : x ≤ l.foldr max 0 := by
  induction l with
  | nil => cases h
  | cons y ys ih =>
    rcases List.mem_cons.mp h with h | h
    · rw [h]; exact le_max_left _ _
    · exact le_trans (ih h) (le_max_right _ _)

theorem maxDateEnc_le {r1 r2 : List DayRow} {k1 k2 : ℕ}
    (h1 : ∀ r ∈ r1, r.date.ym = k1) (h2 : ∀ r ∈ r2, r.date.ym = k2)
    (hd1 : ∀ r ∈ r1, r.date.d < 100) (hk : k1 < k2) (h2ne : r2 ≠ []) :
    maxDateEnc r1 ≤ maxDateEnc r2 := by
  obtain ⟨y, hy⟩ := List.exists_mem_of_ne_nil r2 h2ne
  have hyb : y.date.enc ≤ maxDateEnc r2 :=
    le_foldr_max (List.mem_map_of_mem _ hy)
  refine le_trans (foldr_max_le ?_) hyb
  intro x hx
  obtain ⟨r, hr, hrx⟩ := List.mem_map.mp hx
  rw [← hrx]
  have e1 := Date.enc_eq r.date
  have e2 := Date.enc_eq y.date
  have := h1 r hr
  have := h2 y hy
  have := hd1 r hr
  omega

theorem selicBucket_value {rows : List DayRow} {k : ℕ} {g : List DayRow} {a : ℚ}
    (hfil : rows.filter (fun r => r.date.ym == k) = g)
    (hv : ∀ r ∈ g, r.value = a) (hne : g ≠ []) :
    (selicBucket rows k).value = a := by
  unfold selicBucket
  rw [hfil]
  exact meanQ_const
    (fun x hx => by
      obtain ⟨r, hr, hrx⟩ := List.mem_map.mp hx
      rw [← hrx]; exact hv r hr)
    (by simpa using hne)

theorem selicBucket_date {rows : List DayRow} {k : ℕ} {g : List DayRow}
    (hfil : rows.filter (fun r => r.date.ym == k) = g) :
    (selicBucket rows k).date = maxDateEnc g := by
  unfold selicBucket
  rw [hfil]

theorem getColD_congr {f g : Frame} {c : String}
    (h : f.getCol? c = g.getCol? c) : f.getColD c = g.getColD c := by
  unfold Frame.getColD
  rw [h]

/-! ### Claim theorems -/

/-- **C1.** The labor policy's `variations` argument is a Python dict
literal in which the key `'diff'` is written twice (bronze_to_silver.py:
273-275); the second entry overwrites the first, so the transformation
attaches only `annual_change_pp` (the 4-period difference) together with
`moving_avg_3q` — the `quarterly_change_pp` column claimed by the spec is
never produced.  Evaluated at a concrete five-quarter series
8.8, 8.3, 7.9, 7.6, 7.8: no `quarterly_change_pp` column exists, while
`annual_change_pp` holds the lag-4 difference 7.8 − 8.8 = −1. -/
theorem C1_labor_policy_missing_quarterly_change :
    (transform_desemprego_core exLaborSeries).hasCol "quarterly_change_pp" = false ∧
    (transform_desemprego_core exLaborSeries).hasCol "annual_change_pp" = true ∧
    (transform_desemprego_core exLaborSeries).hasCol "moving_avg_3q" = true ∧
    (transform_desemprego_core exLaborSeries).getColD "annual_change_pp" =
      [none, none, none, none, some (-1)] := by
  decide

/-- **C5.** For every monthly bucket of the FX aggregation that contains
exactly one observation, the `for ym, group in df.groupby('year_month')`
loop body yields `open = high = low = close` — all equal to the single
observation's value — and `volatility = 0` (the explicit
`if len(group) > 1` guard, not null), for every standard-deviation
function; the aggregation is total, so no exception can escape a
size-one bucket. -/
theorem C5_ohlc_singleton_bucket (stdF : List ℚ → ℚ) (rows : List DayRow)
    (k : ℕ) (r : DayRow)
    (h : rows.filter (fun x => x.date.ym == k) = [r]) :
    cambioBucket stdF rows k =
      { date := r.date.enc, opn := r.value, cls := r.value, hi := r.value,
        lo := r.value, avg := r.value, vol := 0 } := by
  unfold cambioBucket
  rw [h]
  simp [maxDateEnc, qMax, qMin, meanQ]

/-- Witness for C5: the February 2023 bucket of the concrete FX series
has exactly one observation (value 4), and the aggregation maps it to
`open = high = low = close = 4`, `volatility = 0`. -/
theorem C5_ohlc_singleton_bucket_witness :
    exCambioRows.filter (fun x => x.date.ym == 202302) = [⟨⟨2023, 2, 1⟩, 4⟩] ∧
    cambioBucket (fun _ => 0) exCambioRows 202302 =
      { date := 20230201, opn := 4, cls := 4, hi := 4, lo := 4, avg := 4, vol := 0 } :=
  ⟨by decide, C5_ohlc_singleton_bucket (fun _ => 0) exCambioRows 202302 ⟨⟨2023, 2, 1⟩, 4⟩
    (by decide)⟩

/-- **C6 counterexample.** On a frame with neither a `date` nor a `data`
column, `standardize_date_column` does *not* fail with a
`DataFormatError` — it returns the table unchanged (date_utils.py:22-29
logs an error and `return result_df`; no such exception type exists in
the codebase). -/
theorem C6_no_date_column_counterexample :
    standardize_date_column exNoDateFrame "date" = exNoDateFrame := by
  decide

/-- **C6 (amended).** For every frame in which neither a `date` nor a
`data` column exists, date-column resolution logs an error and returns
the frame unchanged; no exception is raised on this path. -/
theorem C6_no_date_column_returns_input (df : Frame)
    (hdate : df.hasCol "date" = false) (hdata : df.hasCol "data" = false) :
    standardize_date_column df "date" = df := by
  unfold standardize_date_column
  simp [hdate, hdata]

/-- Witness for the amended C6 at the concrete no-date frame. -/
theorem C6_no_date_column_returns_input_witness :
    exNoDateFrame.hasCol "date" = false ∧ exNoDateFrame.hasCol "data" = false ∧
    standardize_date_column exNoDateFrame "date" = exNoDateFrame :=
  ⟨by decide, by decide,
   C6_no_date_column_returns_input exNoDateFrame (by decide) (by decide)⟩

/-- **C9.** The gold run equals the disjunction of the three independent
product outcomes: each product block (monthly panel, labor panel, macro
dashboard) is built and saved inside its own `try/except`, each
disjunct depends only on its own builder and write outcome — so a
failure in one cannot prevent the others — and the run as a whole
succeeds iff `success_count > 0`, i.e. iff at least one product was
actually written (the `allNone` early exit writes nothing and fails). -/
theorem C9_gold_run_weak_success (ind : GoldIndicators)
    (b1 b2 b3 : GoldIndicators → Option Frame) (w1 w2 w3 : Bool) :
    process_gold_layer ind b1 b2 b3 w1 w2 w3 =
      (!ind.allNone &&
        (gold_product_step b1 ind w1 || gold_product_step b2 ind w2 ||
          gold_product_step b3 ind w3)) := by
  unfold process_gold_layer
  cases ha : ind.allNone <;>
    cases hb1 : gold_product_step b1 ind w1 <;>
    cases hb2 : gold_product_step b2 ind w2 <;>
    cases hb3 : gold_product_step b3 ind w3 <;>
    simp

/-- **C7.** The orchestrator's Validate step runs `validate_dataset` with
required columns `[date, value, indicator]` and null threshold 10.0
(base_transformer.py:195-199; the threshold is a parameter of the
validation helpers, fixed to 10 at this call site): a passing validation
entails that all three required columns are present and that no column's
null ratio exceeds 10%; and the outcome of Persist is the storage write
result regardless of the validation verdict — a failing validation is
only logged and does not block Persist. -/
theorem C7_validation_checks_and_is_advisory (df t : Frame)
    (T : Frame → Option Frame) (w : Bool)
    (hT : T df = some t) (hne : t.isEmpty = false) :
    base_process_indicator (some df) T w = w ∧
    (validate_dataset t ["date", "value", "indicator"] 10 true = true →
      (t.hasCol "date" = true ∧ t.hasCol "value" = true ∧
        t.hasCol "indicator" = true) ∧
      ∀ c ∈ t.header, nullPct (t.getColD c) ≤ 10) := by
  constructor
  · unfold base_process_indicator
    simp [hT, hne]
  · intro hv
    unfold validate_dataset at hv
    simp only [hne, Bool.false_eq_true, if_false, Bool.and_eq_true] at hv
    obtain ⟨⟨h1, h2⟩, -⟩ := hv
    constructor
    · unfold validate_column_presence at h1
      simp only [hne, Bool.false_eq_true, if_false] at h1
      rw [List.isEmpty_iff, List.filter_eq_nil_iff] at h1
      refine ⟨?_, ?_, ?_⟩
      · simpa using h1 "date" (by simp)
      · simpa using h1 "value" (by simp)
      · simpa using h1 "indicator" (by simp)
    · intro c hc
      unfold validate_missing_values at h2
      simp only [hne, Bool.false_eq_true, if_false] at h2
      rw [List.isEmpty_iff, List.map_eq_nil_iff, List.filter_eq_nil_iff] at h2
      have := h2 c hc
      simp only [decide_eq_true_eq] at this
      exact le_of_not_lt this

/-- Witness for C7 at a concrete transformed frame: the identity policy,
a successful write, and the validation consequences. -/
theorem C7_validation_checks_and_is_advisory_witness :
    ((fun d => some d) exValFrame = some exValFrame ∧ exValFrame.isEmpty = false) ∧
    (base_process_indicator (some exValFrame) (fun d => some d) true = true ∧
      (validate_dataset exValFrame ["date", "value", "indicator"] 10 true = true →
        (exValFrame.hasCol "date" = true ∧ exValFrame.hasCol "value" = true ∧
          exValFrame.hasCol "indicator" = true) ∧
        ∀ c ∈ exValFrame.header, nullPct (exValFrame.getColD c) ≤ 10)) :=
  ⟨⟨rfl, by decide⟩,
   C7_validation_checks_and_is_advisory exValFrame exValFrame (fun d => some d) true
     rfl (by decide)⟩

/-- **C10 counterexample.** `calculate_moving_average` does not always
leave pre-existing columns unchanged: when the input already carries a
column with the result name (here the default `moving_avg_3`), pandas
column assignment overwrites it in place instead of appending a new
column. -/
theorem C10_moving_average_overwrite_counterexample :
    (calculate_moving_average exMaFrame "value" 3 none).getCol? "moving_avg_3" ≠
      exMaFrame.getCol? "moving_avg_3" := by
  decide

/-- **C10 (amended).** The moving-average helper is total and returns the
input frame with the result column set — appended when its name is new,
overwritten in place when a column of that name already exists: the
header gains at most the result name, the row count is unchanged, every
column other than the result column is unchanged, and when the value
column is absent the output equals the input exactly. -/
theorem C10_moving_average_frame_property (df : Frame) (vc : String) (w : ℕ)
    (rc : Option String) (hwf : df.wf) :
    (df.hasCol vc = false → calculate_moving_average df vc w rc = df) ∧
    ((calculate_moving_average df vc w rc).header = df.header ∨
      (calculate_moving_average df vc w rc).header =
        df.header ++ [rc.getD ("moving_avg_" ++ toString w)]) ∧
    (calculate_moving_average df vc w rc).rows.length = df.rows.length ∧
    ∀ c, c ≠ rc.getD ("moving_avg_" ++ toString w) →
      (calculate_moving_average df vc w rc).getCol? c = df.getCol? c := by
  by_cases hvc : df.hasCol vc
  · have hvc' : (!df.hasCol vc) = false := by rw [hvc]; rfl
    by_cases hw : w = 0
    · unfold calculate_moving_average
      rw [hvc', hw]
      simp
    · have hlen : (rollingApplyL meanQ w (df.getColD vc)).length = df.rows.length := by
        rw [show (rollingApplyL meanQ w (df.getColD vc)).length =
            (df.getColD vc).length from by simp [rollingApplyL]]
        exact getColD_length hvc
      unfold calculate_moving_average
      rw [hvc']
      simp only [Bool.false_eq_true, if_false, if_neg hw]
      refine ⟨?_, ?_, ?_, ?_⟩
      · intro h
        rw [hvc] at h
        cases h
      · by_cases hmem : rc.getD ("moving_avg_" ++ toString w) ∈ df.header
        · obtain ⟨i, hi⟩ := colIdx_isSome_of_mem hmem
          exact Or.inl (setCol_header_of_mem hi)
        · exact Or.inr (setCol_header_of_not_mem hmem)
      · exact setCol_rows_length hlen
      · intro c hcne
        exact getCol?_setCol_ne hcne hwf hlen
  · have hvc' : df.hasCol vc = false := by
      cases h : df.hasCol vc
      · rfl
      · exact absurd h hvc
    unfold calculate_moving_average
    rw [hvc']
    simp

/-- Witness for the amended C10 at a concrete frame whose result column
already exists. -/
theorem C10_moving_average_frame_property_witness :
    exMaFrame.wf ∧
    ((exMaFrame.hasCol "value" = false →
        calculate_moving_average exMaFrame "value" 3 none = exMaFrame) ∧
      ((calculate_moving_average exMaFrame "value" 3 none).header = exMaFrame.header ∨
        (calculate_moving_average exMaFrame "value" 3 none).header =
          exMaFrame.header ++ [(none : Option String).getD ("moving_avg_" ++ toString 3)]) ∧
      (calculate_moving_average exMaFrame "value" 3 none).rows.length =
        exMaFrame.rows.length ∧
      ∀ c, c ≠ (none : Option String).getD ("moving_avg_" ++ toString 3) →
        (calculate_moving_average exMaFrame "value" 3 none).getCol? c =
          exMaFrame.getCol? c) :=
  ⟨by decide,
   C10_moving_average_frame_property exMaFrame "value" 3 none (by decide)⟩

/-- **C2.** For every valid (sorted-by-date, nonzero-valued) numeric
series, the percent-change variation with lag 1 and scale 100 computed by
`calculate_variations` satisfies `result[i] = (v[i]/v[i-1] - 1) * 100`
for every `i ≥ 1`, and `result[i]` is null for `i < 1` — the first lag
row has no prior value and is null, not an error (the embedding is
total). -/
theorem C2_pct_change_lag1 (dates : List ℕ) (vals : List ℚ)
    (hlen : dates.length = vals.length)
    (hsorted : List.Sorted (rowLe 0) (mkSeriesFrame dates vals).rows)
    (hnz : ∀ x ∈ vals, x ≠ 0) :
    (calculate_variations (mkSeriesFrame dates vals) "value" "date"
        [("pct_change", ⟨1, some "monthly_change_pct", 100⟩)]).getCol?
        "monthly_change_pct" =
      some ((List.range vals.length).map fun i =>
        if 1 ≤ i then
          some ((vals.getD i 0 / vals.getD (i - 1) 0 - 1) * 100)
        else none) := by
  have hrows : (mkSeriesFrame dates vals).rows.length = vals.length := by
    simp [mkSeriesFrame, hlen]
  unfold calculate_variations
  rw [show ((!(mkSeriesFrame dates vals).hasCol "value") ||
      (!(mkSeriesFrame dates vals).hasCol "date")) = false from rfl]
  simp only [Bool.false_eq_true, if_false, List.foldl_cons, List.foldl_nil]
  rw [sortByCol_eq_of_sorted
    (show colIdx (mkSeriesFrame dates vals).header "date" = some 0 from rfl) hsorted]
  unfold applyVariation
  rw [if_pos rfl]
  simp only [Option.getD_some]
  rw [mkSeriesFrame_value_col dates vals hlen]
  have hv : ((pctChangeL 1 (vals.map some)).map (cellScale 100)).length =
      (mkSeriesFrame dates vals).rows.length := by
    rw [List.length_map, pctChangeL_length, List.length_map, hrows]
  rw [getCol?_setCol_self (mkSeriesFrame_wf dates vals) hv]
  congr 1
  rw [pctChangeL_map_some, List.map_map]
  apply List.map_congr_left
  intro i hi
  by_cases hp : 1 ≤ i
  · simp [Function.comp, cellScale, hp]
  · simp [Function.comp, cellScale, hp]

/-- Witness for C2 at the sorted three-point series `[2, 4, 3]`:
`result = [null, +100%, −25%]`. -/
theorem C2_pct_change_lag1_witness :
    (([1, 2, 3] : List ℕ).length = ([2, 4, 3] : List ℚ).length ∧
      List.Sorted (rowLe 0) (mkSeriesFrame [1, 2, 3] [2, 4, 3]).rows ∧
      ∀ x ∈ ([2, 4, 3] : List ℚ), x ≠ 0) ∧
    (calculate_variations (mkSeriesFrame [1, 2, 3] [2, 4, 3]) "value" "date"
        [("pct_change", ⟨1, some "monthly_change_pct", 100⟩)]).getCol?
        "monthly_change_pct" =
      some ((List.range ([2, 4, 3] : List ℚ).length).map fun i =>
        if 1 ≤ i then
          some ((([2, 4, 3] : List ℚ).getD i 0 /
            ([2, 4, 3] : List ℚ).getD (i - 1) 0 - 1) * 100)
        else none) :=
  ⟨⟨rfl, by decide, by decide⟩,
   C2_pct_change_lag1 [1, 2, 3] [2, 4, 3] rfl (by decide) (by decide)⟩

/-- **C4.** The year-to-date computation groups by calendar year in row
order: every entry equals `(v[i]/v[first in year] − 1) * 100`; hence it
resets at every year boundary — any observation that opens its year
group (in particular the first observation of year Y+1 in a two-year
series) gets YTD 0 — and a year group with exactly one observation
yields 0, not null. -/
theorem C4_ytd_resets_at_year_boundary (years : List ℕ) (vals : List ℚ)
    (hlen : years.length = vals.length)
    (hnz : ∀ x ∈ vals, x ≠ 0) :
    (calculate_year_to_date (mkYearFrame years vals) "value" "date" "year"
        "year_to_date_pct").getCol? "year_to_date_pct" =
      some ((List.range vals.length).map (fun i =>
        some ((vals.getD i 0 / vals.getD (firstOfYearIdx years i) 0 - 1) * 100))) ∧
    (∀ i, i < vals.length → (∀ j, j < i → years.getD j 0 ≠ years.getD i 0) →
      ((calculate_year_to_date (mkYearFrame years vals) "value" "date" "year"
        "year_to_date_pct").getColD "year_to_date_pct").getD i none = some 0) ∧
    (∀ i, i < vals.length →
      (∀ j, j < years.length → j ≠ i → years.getD j 0 ≠ years.getD i 0) →
      ((calculate_year_to_date (mkYearFrame years vals) "value" "date" "year"
        "year_to_date_pct").getColD "year_to_date_pct").getD i none = some 0) := by
  have hrows : (mkYearFrame years vals).rows.length = vals.length := by
    simp [mkYearFrame, hlen]
  have hcol : (calculate_year_to_date (mkYearFrame years vals) "value" "date" "year"
      "year_to_date_pct").getCol? "year_to_date_pct" =
      some ((List.range vals.length).map (fun i =>
        some ((vals.getD i 0 / vals.getD (firstOfYearIdx years i) 0 - 1) * 100))) := by
    unfold calculate_year_to_date
    rw [show (!(mkYearFrame years vals).hasCol "value") = false from rfl,
      show ((!(mkYearFrame years vals).hasCol "year") &&
        (!(mkYearFrame years vals).hasCol "date")) = false from rfl]
    simp only [Bool.false_eq_true, if_false]
    rw [if_pos (show (mkYearFrame years vals).hasCol "year" = true from rfl)]
    rw [mkYearFrame_year_col years vals hlen, mkYearFrame_value_col years vals hlen]
    have hv : (ytdGroupTransform (years.map (fun (y : ℕ) => some ((y : ℚ))))
        (vals.map some)).length = (mkYearFrame years vals).rows.length := by
      simp [ytdGroupTransform, hrows]
    rw [getCol?_setCol_self (mkYearFrame_wf years vals) hv,
      ytdGroupTransform_cast years vals hlen]
  have hentry : ∀ i, i < vals.length →
      ((calculate_year_to_date (mkYearFrame years vals) "value" "date" "year"
        "year_to_date_pct").getColD "year_to_date_pct").getD i none =
      some ((vals.getD i 0 / vals.getD (firstOfYearIdx years i) 0 - 1) * 100) := by
    intro i hi
    unfold Frame.getColD
    rw [hcol]
    simp only [Option.getD_some]
    rw [List.getD_eq_getElem?_getD, List.getElem?_map, List.getElem?_range hi]
    rfl
  have hzero : ∀ i, i < vals.length →
      (∀ j, j < i → years.getD j 0 ≠ years.getD i 0) →
      ((calculate_year_to_date (mkYearFrame years vals) "value" "date" "year"
        "year_to_date_pct").getColD "year_to_date_pct").getD i none = some 0 := by
    intro i hi hfirst
    rw [hentry i hi]
    have hfi : firstOfYearIdx years i = i :=
      findIdx_eq_self_of_first (by omega) hfirst
    rw [hfi]
    have hvne : vals.getD i 0 ≠ 0 := by
      apply hnz
      rw [List.getD_eq_getElem?_getD, List.getElem?_eq_getElem hi]
      exact List.getElem_mem hi
    rw [div_self hvne]
    norm_num
  exact ⟨hcol, hzero, fun i hi hsingle =>
    hzero i hi (fun j hj => hsingle j (by omega) (by omega))⟩

/-- Witness for C4 on a two-year series `[2, 3]` (2023) and `[4, 6]`
(2024): the first row of 2024 (a year-boundary row) and the reset
behaviour, instantiated concretely. -/
theorem C4_ytd_resets_at_year_boundary_witness :
    (([2023, 2023, 2024, 2024] : List ℕ).length = ([2, 3, 4, 6] : List ℚ).length ∧
      ∀ x ∈ ([2, 3, 4, 6] : List ℚ), x ≠ 0) ∧
    ((calculate_year_to_date (mkYearFrame [2023, 2023, 2024, 2024] [2, 3, 4, 6])
        "value" "date" "year" "year_to_date_pct").getCol? "year_to_date_pct" =
      some ((List.range ([2, 3, 4, 6] : List ℚ).length).map (fun i =>
        some ((([2, 3, 4, 6] : List ℚ).getD i 0 /
          ([2, 3, 4, 6] : List ℚ).getD
            (firstOfYearIdx [2023, 2023, 2024, 2024] i) 0 - 1) * 100))) ∧
      (∀ i, i < ([2, 3, 4, 6] : List ℚ).length →
        (∀ j, j < i → ([2023, 2023, 2024, 2024] : List ℕ).getD j 0 ≠
          ([2023, 2023, 2024, 2024] : List ℕ).getD i 0) →
        ((calculate_year_to_date (mkYearFrame [2023, 2023, 2024, 2024] [2, 3, 4, 6])
          "value" "date" "year" "year_to_date_pct").getColD
            "year_to_date_pct").getD i none = some 0) ∧
      (∀ i, i < ([2, 3, 4, 6] : List ℚ).length →
        (∀ j, j < ([2023, 2023, 2024, 2024] : List ℕ).length → j ≠ i →
          ([2023, 2023, 2024, 2024] : List ℕ).getD j 0 ≠
            ([2023, 2023, 2024, 2024] : List ℕ).getD i 0) →
        ((calculate_year_to_date (mkYearFrame [2023, 2023, 2024, 2024] [2, 3, 4, 6])
          "value" "date" "year" "year_to_date_pct").getColD
            "year_to_date_pct").getD i none = some 0)) :=
  ⟨⟨rfl, by decide⟩,
   C4_ytd_resets_at_year_boundary [2023, 2023, 2024, 2024] [2, 3, 4, 6] rfl (by decide)⟩

/-- **C8 counterexample.** On a concrete normalized daily series, the FX
transformation of `src/transformers/bronze_to_silver.py` produces *no*
`monthly_change_pct`, `ma_3m` or `ma_6m` columns — the derived columns it
actually appends are `return_pct`, `volatility_20`, `amplitude_pct`,
`ma_20`, `ma_50` and `ma_cross_signal` (from
`calculate_financial_metrics`), plus `monthly_amplitude_pct`. -/
theorem C8_fx_missing_claimed_columns_counterexample :
    (transform_cambio_core (fun _ => 0) exCambioRows).hasCol "monthly_change_pct" =
        false ∧
    (transform_cambio_core (fun _ => 0) exCambioRows).hasCol "ma_3m" = false ∧
    (transform_cambio_core (fun _ => 0) exCambioRows).hasCol "ma_6m" = false ∧
    (transform_cambio_core (fun _ => 0) exCambioRows).hasCol "return_pct" = true ∧
    (transform_cambio_core (fun _ => 0) exCambioRows).hasCol "ma_20" = true ∧
    (transform_cambio_core (fun _ => 0) exCambioRows).hasCol "ma_50" = true := by
  decide

set_option maxHeartbeats 2000000 in
/-- **C8 (amended).** For every normalized daily series and every
standard-deviation function, the FX transformation aggregates to monthly
OHLC, sets the canonical `value` column equal to the monthly close,
and appends `monthly_amplitude_pct = (high − low)/low * 100` row-wise —
but the percent-change and moving-average columns it attaches are
`return_pct`, `volatility_20`, `amplitude_pct`, `ma_20`, `ma_50` and
`ma_cross_signal`, not `monthly_change_pct`/`ma_3m`/`ma_6m`. -/
theorem C8_fx_value_close_amplitude (stdF : List ℚ → ℚ) (rows : List DayRow) :
    (transform_cambio_core stdF rows).header =
      ["date", "open", "close", "high", "low", "avg", "volatility", "value",
       "return_pct", "volatility_20", "amplitude_pct", "ma_20", "ma_50",
       "ma_cross_signal", "monthly_amplitude_pct"] ∧
    (transform_cambio_core stdF rows).getCol? "value" =
      (transform_cambio_core stdF rows).getCol? "close" ∧
    (transform_cambio_core stdF rows).getCol? "monthly_amplitude_pct" =
      some (List.zipWith (cellMap2 (fun h l => (h - l) / l * 100))
        ((transform_cambio_core stdF rows).getColD "high")
        ((transform_cambio_core stdF rows).getColD "low")) := by
  unfold transform_cambio_core
  have hm0wf := ohlcFrame_wf (cambioMonthly stdF rows)
  set m0 := ohlcFrame (cambioMonthly stdF rows) with hm0
  have hm0h : m0.header = ["date", "open", "close", "high", "low", "avg",
      "volatility"] := by rw [hm0]; rfl
  have hm0close : m0.hasCol "close" = true := hasCol_eq_true_iff.mpr (by
    rw [hm0h]; simp)
  have hlen0 : (m0.getColD "close").length = m0.rows.length := getColD_length hm0close
  have s1 := setCol_append_step (c := "value") (v := m0.getColD "close") hm0wf hlen0
    (by rw [hm0h]; simp)
  obtain ⟨e1, w1, l1, p1⟩ := s1
  set m1 := m0.setCol "value" (m0.getColD "close") with hm1
  have hm1h : m1.header = ["date", "open", "close", "high", "low", "avg",
      "volatility", "value"] := by rw [e1, hm0h]; rfl
  have hval1 : m1.getCol? "value" = some (m0.getColD "close") :=
    getCol?_setCol_self hm0wf hlen0
  have hclose1 : m1.getCol? "close" = m0.getCol? "close" := p1 "close" (by simp)
  have hcfm := calc_fin_metrics_cols stdF m1 w1
    (by rw [hm1h]; simp) (by rw [hm1h]; simp) (by rw [hm1h]; simp)
    (by rw [hm1h]; simp) (by rw [hm1h]; simp) (by rw [hm1h]; simp)
    (by rw [hm1h]; simp) (by rw [hm1h]; simp) (by rw [hm1h]; simp)
  obtain ⟨E, W, L, P⟩ := hcfm
  set m2 := calculate_financial_metrics stdF m1 "close" "high" "low" with hm2
  have hm2h : m2.header = ["date", "open", "close", "high", "low", "avg",
      "volatility", "value", "return_pct", "volatility_20", "amplitude_pct",
      "ma_20", "ma_50", "ma_cross_signal"] := by rw [E, hm1h]; rfl
  have hm2high : m2.hasCol "high" = true := hasCol_eq_true_iff.mpr (by
    rw [hm2h]; simp)
  have hm2low : m2.hasCol "low" = true := hasCol_eq_true_iff.mpr (by
    rw [hm2h]; simp)
  have hlenz : (List.zipWith (cellMap2 (fun h l => (h - l) / l * 100))
      (m2.getColD "high") (m2.getColD "low")).length = m2.rows.length := by
    rw [List.length_zipWith, getColD_length hm2high, getColD_length hm2low]
    simp
  have hampnot : "monthly_amplitude_pct" ∉ m2.header := by
    rw [hm2h]; simp
  refine ⟨?_, ?_, ?_⟩
  · rw [setCol_header_of_not_mem hampnot, hm2h]
    rfl
  · rw [getCol?_setCol_ne (by simp) W hlenz, getCol?_setCol_ne (by simp) W hlenz,
      P "value" (by rw [hm1h]; simp), P "close" (by rw [hm1h]; simp),
      hval1, hclose1, getCol?_eq_some_getColD hm0close]
  · have hh : (m2.setCol "monthly_amplitude_pct"
        (List.zipWith (cellMap2 (fun h l => (h - l) / l * 100)) (m2.getColD "high")
          (m2.getColD "low"))).getColD "high" = m2.getColD "high" :=
      getColD_congr (getCol?_setCol_ne (by simp) W hlenz)
    have hl : (m2.setCol "monthly_amplitude_pct"
        (List.zipWith (cellMap2 (fun h l => (h - l) / l * 100)) (m2.getColD "high")
          (m2.getColD "low"))).getColD "low" = m2.getColD "low" :=
      getColD_congr (getCol?_setCol_ne (by simp) W hlenz)
    rw [hh, hl]
    exact getCol?_setCol_self W hlenz

set_option maxHeartbeats 2000000 in
/-- **C3.** For every policy-rate daily input consisting of one calendar
month of constant value `a` followed by a later calendar month of
constant value `b` (any number of days each, spanning exactly two
months), the SELIC transformation produces exactly 2 monthly rows, the
`value` column holds the per-month means `a` and `b`, and the second
row's `change_bps` equals `(b − a) * 100`. -/
theorem C3_selic_two_month_aggregation (r1 r2 : List DayRow) (a b : ℚ) (k1 k2 : ℕ)
    (h1k : ∀ r ∈ r1, r.date.ym = k1) (h2k : ∀ r ∈ r2, r.date.ym = k2)
    (h1v : ∀ r ∈ r1, r.value = a) (h2v : ∀ r ∈ r2, r.value = b)
    (h1ne : r1 ≠ []) (h2ne : r2 ≠ []) (hk : k1 < k2)
    (hd1 : ∀ r ∈ r1, r.date.d < 100) :
    (transform_selic_core (r1 ++ r2)).rows.length = 2 ∧
    (transform_selic_core (r1 ++ r2)).getCol? "value" = some [some a, some b] ∧
    (transform_selic_core (r1 ++ r2)).getCol? "change_bps" =
      some [none, some ((b - a) * 100)] := by
  unfold transform_selic_core
  rw [ymKeys_two_groups h1k h2k h1ne h2ne hk]
  simp only [List.map_cons, List.map_nil]
  set B1 := selicBucket (r1 ++ r2) k1 with hB1
  set B2 := selicBucket (r1 ++ r2) k2 with hB2
  have hv1 : B1.value = a := by
    rw [hB1]
    exact selicBucket_value (filter_ym_left h1k h2k (Nat.ne_of_lt hk)) h1v h1ne
  have hv2 : B2.value = b := by
    rw [hB2]
    exact selicBucket_value (filter_ym_right h1k h2k (Nat.ne_of_lt hk)) h2v h2ne
  have hdd : B1.date ≤ B2.date := by
    rw [hB1, hB2, selicBucket_date (filter_ym_left h1k h2k (Nat.ne_of_lt hk)),
      selicBucket_date (filter_ym_right h1k h2k (Nat.ne_of_lt hk))]
    exact maxDateEnc_le h1k h2k hd1 hk h2ne
  rw [hv1, hv2]
  set F : Frame := ⟨["date", "value", "year", "month"],
    [[some ((B1.date : ℚ)), some a, some ((B1.year : ℚ)), some ((B1.month : ℚ))],
     [some ((B2.date : ℚ)), some b, some ((B2.year : ℚ)), some ((B2.month : ℚ))]]⟩
    with hF
  have hsor : List.Sorted (rowLe 0) F.rows := by
    rw [hF]
    refine List.sorted_cons.mpr ⟨?_, List.sorted_singleton _⟩
    intro r hr
    rw [List.mem_singleton] at hr
    subst hr
    exact decide_eq_true (by exact_mod_cast hdd)
  unfold calculate_variations
  rw [show ((!F.hasCol "value") || (!F.hasCol "date")) = false from rfl]
  simp only [Bool.false_eq_true, if_false, List.foldl_cons, List.foldl_nil]
  rw [sortByCol_eq_of_sorted (show colIdx F.header "date" = some 0 from rfl) hsor]
  exact ⟨rfl, rfl, rfl⟩

set_option maxHeartbeats 4000000 in
/-- Witness for C3 at the concrete scenario: 13.75 on each of the 30
days of April 2023 and 13.25 on May 1–30 2023 — constant for 30 days,
then 30 more days at the lower rate, spanning exactly two calendar
months; the transformation yields 2 monthly rows with means 13.75 and
13.25 and `change_bps = (13.25 − 13.75)·100 = −50`. -/
theorem C3_selic_two_month_aggregation_witness :
    ((∀ r ∈ (List.range 30).map (fun i => (⟨⟨2023, 4, i + 1⟩, 55/4⟩ : DayRow)),
        r.date.ym = 202304) ∧
      (∀ r ∈ (List.range 30).map (fun i => (⟨⟨2023, 5, i + 1⟩, 53/4⟩ : DayRow)),
        r.date.ym = 202305) ∧
      (∀ r ∈ (List.range 30).map (fun i => (⟨⟨2023, 4, i + 1⟩, 55/4⟩ : DayRow)),
        r.value = 55/4) ∧
      (∀ r ∈ (List.range 30).map (fun i => (⟨⟨2023, 5, i + 1⟩, 53/4⟩ : DayRow)),
        r.value = 53/4) ∧
      (202304 : ℕ) < 202305 ∧
      (∀ r ∈ (List.range 30).map (fun i => (⟨⟨2023, 4, i + 1⟩, 55/4⟩ : DayRow)),
        r.date.d < 100)) ∧
    ((transform_selic_core exSelicRows).rows.length = 2 ∧
      (transform_selic_core exSelicRows).getCol? "value" =
        some [some (55/4), some (53/4)] ∧
      (transform_selic_core exSelicRows).getCol? "change_bps" =
        some [none, some (((53 : ℚ)/4 - 55/4) * 100)]) ∧
    ((53 : ℚ)/4 - 55/4) * 100 = -50 :=
  ⟨⟨by decide, by decide, by decide, by decide, by decide, by decide⟩,
   C3_selic_two_month_aggregation
     ((List.range 30).map (fun i => (⟨⟨2023, 4, i + 1⟩, 55/4⟩ : DayRow)))
     ((List.range 30).map (fun i => (⟨⟨2023, 5, i + 1⟩, 53/4⟩ : DayRow)))
     (55/4) (53/4) 202304 202305
     (by decide) (by decide) (by decide) (by decide)
     (by decide) (by decide) (by decide) (by decide),
   by norm_num⟩

end EconETL
